import Mathlib

/-!
Shallow embedding of the speckmeter repository (Rust) for verification.

Numeric modelling: the program computes over `f32`.  Claims checked here are
structural (control flow, canonicalization order, monotonicity checks,
domain/NaN handling, sequence construction), so finite float values are
modelled exactly by rationals `ℚ`, and non-finite results (NaN, ±∞) by `none`
in the option type `Fl := Option ℚ`.  Arithmetic on `Fl` propagates `none`,
and the partial operations (`sqrt` of a negative number, division by zero)
produce `none`, matching the NaN behaviour the claims are about.  The value of
`f32::sqrt` on non-negative inputs is kept abstract: definitions that need it
take a function `sq : ℚ → ℚ` as a parameter, so every theorem holds for any
realisation of square root on the valid domain.
-/

/-- Model of an `f32` value: `some q` is a finite value, `none` is NaN/∞. -/
abbrev Fl : Type := Option ℚ

namespace Fl

/-- Addition on `f32`: finite + finite is exact, non-finite propagates. -/
def add : Fl → Fl → Fl
  | some a, some b => some (a + b)
  | _, _ => none

/-- Subtraction on `f32`. -/
def sub : Fl → Fl → Fl
  | some a, some b => some (a - b)
  | _, _ => none

/-- Multiplication on `f32`. -/
def mul : Fl → Fl → Fl
  | some a, some b => some (a * b)
  | _, _ => none

/-- Division on `f32`: division by zero is non-finite (NaN or ±∞), modelled
as `none`; non-finite operands propagate. -/
def div : Fl → Fl → Fl
  | some a, some b => if b = 0 then none else some (a / b)
  | _, _ => none

/-- `f32::sqrt`: NaN for negative inputs, the (abstract) value `sq x`
otherwise.  `sq` stands for the float square root on its valid domain. -/
def sqrt (sq : ℚ → ℚ) : Fl → Fl
  | some a => if a < 0 then none else some (sq a)
  | none => none

end Fl

/-! ## `src/fitting.rs` — gradient descent with backtracking line search

The Rust code is generic over a problem `P : Gradient + Cost`; we model the
problem as a pair of functions on rational vectors.  The inner `loop` of
`search_minimum` has no bound in the source; a possibly non-terminating loop
is embedded with an explicit fuel argument, `none` meaning the loop has not
exited within `fuel` shrink steps.  (The `println!` logging every 400
iterations has no effect on the computed values and is omitted.)
-/

/-- A fitting problem: the `Cost` and `Gradient` traits of `src/fitting.rs`. -/
structure Problem where
  cost : List ℚ → ℚ
  gradient : List ℚ → List ℚ

namespace Fitting

/-- `fitting::add`: element-wise sum of two vectors (zip semantics). -/
def add (x1 x2 : List ℚ) : List ℚ := List.zipWith (· + ·) x1 x2

/-- `fitting::scale`: multiply every component by `factor`. -/
def scale (x : List ℚ) (factor : ℚ) : List ℚ := x.map (· * factor)

/-- `fitting::inner_product`: sum of component-wise products. -/
def inner_product (x1 x2 : List ℚ) : ℚ := (List.zipWith (· * ·) x1 x2).sum

/-- The line-search acceptance test of `search_minimum`:
`cost(p) - cost(p + (-α)·g) ≥ α · t` with `t = -c·⟨g,g⟩`, `c = 1/2`. -/
def accepts (P : Problem) (p g : List ℚ) (α : ℚ) : Bool :=
  decide (P.cost p - P.cost (add p (scale g (-α))) ≥
    α * (-(1/2) * inner_product g g))

/-- The inner `loop` of `search_minimum`: starting from `α`, shrink by
`τ = 4/5` until `accepts` holds.  `fuel` bounds the number of loop
executions; the source has no such bound, so `none` means the source loop
has not exited after `fuel` tries. -/
def line_search_loop (P : Problem) (p g : List ℚ) : ℕ → ℚ → Option ℚ
  | 0, _ => none
  | fuel + 1, α =>
    if accepts P p g α then some α else line_search_loop P p g fuel (α * (4/5))

/-- One iteration of `search_minimum`'s `for` loop on the state
(parameters, last step size): compute the gradient, run the line search from
the last step size, then update `p ← p + (-α)·g` and remember `α`. -/
def descent_step (P : Problem) (fuel : ℕ) (st : List ℚ × ℚ) :
    Option (List ℚ × ℚ) :=
  let g := P.gradient st.1
  (line_search_loop P st.1 g fuel st.2).map
    fun α => (add st.1 (scale g (-α)), α)

/-- The `for i in 0..max_iterations` loop of `search_minimum`. -/
def descent_iter (P : Problem) (fuel : ℕ) : ℕ → List ℚ × ℚ →
    Option (List ℚ × ℚ)
  | 0, st => some st
  | n + 1, st => (descent_step P fuel st).bind (descent_iter P fuel n)

/-- `fitting::search_minimum`: run `max_iterations` descent iterations from
the initial parameters, the line search warm-started with
`initial_step_size`, and return the final parameter vector. -/
def search_minimum (P : Problem) (initial_params : List ℚ)
    (max_iterations : ℕ) (initial_step_size : ℚ) (fuel : ℕ) :
    Option (List ℚ) :=
  (descent_iter P fuel max_iterations (initial_params, initial_step_size)).map
    Prod.fst

/-- Modelled from the spec: the index of the first step size in the sequence
`α₀, α₀·τ, α₀·τ², …` (τ = 4/5) that satisfies the sufficient-decrease
condition, searching the first `fuel` members. -/
def spec_first_index (P : Problem) (p g : List ℚ) (fuel : ℕ) (α₀ : ℚ) :
    Option ℕ :=
  (List.range fuel).find? fun n => accepts P p g (α₀ * (4/5) ^ n)

/-- Modelled from the spec: one gradient-descent iteration — gradient, first
accepted step size of the geometric sequence, update `p ← p − α·g`, and the
accepted `α` becomes the next iteration's starting step size (warm start). -/
def spec_step (P : Problem) (fuel : ℕ) (st : List ℚ × ℚ) :
    Option (List ℚ × ℚ) :=
  let g := P.gradient st.1
  (spec_first_index P st.1 g fuel st.2).map
    fun n =>
      let α := st.2 * (4/5) ^ n
      (add st.1 (scale g (-α)), α)

/-- Modelled from the spec: exactly `max_iterations` iterations of
`spec_step` — the iteration count is the sole stopping condition. -/
def spec_search (P : Problem) (fuel : ℕ) : ℕ → List ℚ × ℚ →
    Option (List ℚ × ℚ)
  | 0, st => some st
  | n + 1, st => (spec_step P fuel st).bind (spec_search P fuel n)

/-- Modelled from the spec: run exactly `max_iterations` spec iterations and
return the final parameters. -/
def spec_search_minimum (P : Problem) (initial_params : List ℚ)
    (max_iterations : ℕ) (initial_step_size : ℚ) (fuel : ℕ) :
    Option (List ℚ) :=
  (spec_search P fuel max_iterations (initial_params, initial_step_size)).map
    Prod.fst

/-- A problem on which the sufficient-decrease condition fails for every
positive step size: the reported gradient `[-1]` points in an ascent
direction of `cost p = p[0]`, so `cost(p) − cost(p − α·g) = −α < −α/2`
whenever `α > 0`. -/
def diverging_problem : Problem where
  cost := fun p => p.headI
  gradient := fun _ => [-1]

end Fitting

/-! ## `src/camera_module/my_image.rs` — images and line sampling

An `Image` is a width, a height and a flat RGB byte buffer.  The Xiaolin Wu
anti-aliasing rasterizer comes from the external `line_drawing` crate, so
`read_line_lightness` is parametrised by the list of `((x, y), weight)`
triples the rasterizer yields for the line.  The rasterizer produces `isize`
coordinates which the source converts with `as usize`; that cast wraps
modulo `2^64`, which the model reproduces exactly. -/

structure Image where
  width : ℕ
  height : ℕ
  data : List ℕ

namespace Image

/-- `Image::get`: reject `x` only when `width < x` (note: `x = width` is
accepted), never compare `y` to the height, then read three bytes starting
at `3 * (y * width + x)`; any read past the end of `data` yields `None`. -/
def get (img : Image) (x y : ℕ) : Option (ℕ × ℕ × ℕ) :=
  if img.width < x then
    none
  else
    let index := 3 * (y * img.width + x)
    match img.data.get? index, img.data.get? (index + 1),
        img.data.get? (index + 2) with
    | some r, some g, some b => some (r, g, b)
    | _, _, _ => none

end Image

/-- `rgb_lightness`: `(r + g + b) / (255 * 3)`. -/
def rgb_lightness (r g b : ℕ) : ℚ := ((r : ℚ) + g + b) / (255 * 3)

/-- The `as usize` cast applied to the rasterizer's `isize` coordinates:
wraps modulo `2^64`. -/
def usize_of_isize (i : ℤ) : ℕ := (i % (2 ^ 64 : ℤ)).toNat

/-- `Image::read_line_lightness`, parametrised by the rasterizer output
`triples` for the drawn line: accumulate `Σ lightness·weight` and `Σ weight`
over the triples whose pixel lookup succeeds, then divide.  The division is
the source's `total / total_weights`; with an empty accumulation this is
`0.0 / 0.0 = NaN`, i.e. `none`.  `rll_step` is the body of the
accumulation loop. -/
def rll_step (img : Image) (acc : ℚ × ℚ) (t : (ℤ × ℤ) × ℚ) : ℚ × ℚ :=
  match img.get (usize_of_isize t.1.1) (usize_of_isize t.1.2) with
  | some (r, g, b) => (acc.1 + rgb_lightness r g b * t.2, acc.2 + t.2)
  | none => acc

def read_line_lightness (img : Image) (triples : List ((ℤ × ℤ) × ℚ)) : Fl :=
  let acc := triples.foldl (rll_step img) (0, 0)
  Fl.div (some acc.1) (some acc.2)

/-- The weighted lightness sum over the triples whose pixel is found. -/
def lightness_total (img : Image) (triples : List ((ℤ × ℤ) × ℚ)) : ℚ :=
  (triples.filterMap
    (fun t => (img.get (usize_of_isize t.1.1) (usize_of_isize t.1.2)).map
      fun p => rgb_lightness p.1 p.2.1 p.2.2 * t.2)).sum

/-- The weight sum over the triples whose pixel is found. -/
def weight_total (img : Image) (triples : List ((ℤ × ℤ) × ℚ)) : ℚ :=
  (triples.filterMap
    (fun t => (img.get (usize_of_isize t.1.1) (usize_of_isize t.1.2)).map
      fun _ => t.2)).sum

/-! ## `src/calibration_module.rs` and `src/calib.rs` — calibration lines

A calibration `Line` has two endpoints in normalised picture coordinates;
the source field `end` is a Lean keyword and is called `endp` here.  The
user-drawn coordinates are finite, so they are plain rationals.  Wavelengths
are `u16`, modelled as `ℕ`.

Rust's `sort_by_key` is a stable sort; a stable sort's output is uniquely
determined by the key order together with the original order of equal keys,
so it is modelled by `List.insertionSort` with the key comparison, which is
stable. -/

structure Line where
  start : ℚ × ℚ
  endp : ℚ × ℚ
deriving DecidableEq

namespace Line

/-- `Line::make_top_to_bottom`: swap the endpoints when the start lies
below the end (`start.1 > end.1` on the y coordinates). -/
def make_top_to_bottom (l : Line) : Line :=
  if l.start.2 > l.endp.2 then ⟨l.endp, l.start⟩ else l

/-- `Line::make_left_to_right` (`src/calib.rs`): swap the endpoints when
`start.0 > end.0` on the x coordinates. -/
def make_left_to_right (l : Line) : Line :=
  if l.start.1 > l.endp.1 then ⟨l.endp, l.start⟩ else l

end Line

/-- Rust `is_sorted_by_key`: every adjacent pair of keys is `≤`-ordered. -/
def is_sorted_by_key {α : Type} (key : α → ℚ) : List α → Bool
  | [] => true
  | [_] => true
  | a :: b :: rest => decide (key a ≤ key b) && is_sorted_by_key key (b :: rest)

/-- Rust `Vec::sort_by_key` (a stable sort) with a `u16` key. -/
def sort_by_key {α : Type} (key : α → ℕ) (l : List α) : List α :=
  l.insertionSort fun a b => key a ≤ key b

namespace CalibrationModule

/-- `CalibrationModule::validate` (`src/calibration_module.rs`): canonicalize
every line top-to-bottom, sort by wavelength, and test that the *negated*
start/end x coordinates are in non-decreasing order.  Returns the mutated
line list together with the boolean verdict. -/
def validate (lines : List (ℕ × Line)) : List (ℕ × Line) × Bool :=
  let canon := lines.map fun wl => (wl.1, wl.2.make_top_to_bottom)
  let sorted := sort_by_key (fun wl => wl.1) canon
  (sorted,
    is_sorted_by_key (fun wl => -wl.2.start.1) sorted &&
    is_sorted_by_key (fun wl => -wl.2.endp.1) sorted)

end CalibrationModule

namespace Calibration

/-- `Calibration::validate` (`src/calib.rs`): with horizontal lines,
canonicalize left-to-right and check the y coordinates; with vertical lines,
canonicalize top-to-bottom and check the (un-negated) x coordinates. -/
def validate (horizontal_lines : Bool) (lines : List (ℕ × Line)) :
    List (ℕ × Line) × Bool :=
  if horizontal_lines then
    let canon := lines.map fun wl => (wl.1, wl.2.make_left_to_right)
    let sorted := sort_by_key (fun wl => wl.1) canon
    (sorted,
      is_sorted_by_key (fun wl => wl.2.start.2) sorted &&
      is_sorted_by_key (fun wl => wl.2.endp.2) sorted)
  else
    let canon := lines.map fun wl => (wl.1, wl.2.make_top_to_bottom)
    let sorted := sort_by_key (fun wl => wl.1) canon
    (sorted,
      is_sorted_by_key (fun wl => wl.2.start.1) sorted &&
      is_sorted_by_key (fun wl => wl.2.endp.1) sorted)

end Calibration

/-! ## `SpectralLines` — the fitted geometric model

`line_with_wavelength` and `normed_x` compute over `f32` values that can be
NaN (the square root leaves its domain when the diffraction ratio exceeds 1),
so they work over `Fl`.  A generated line has `Fl` coordinates. -/

/-- A line with possibly non-finite (`f32`) coordinates, as produced by
`SpectralLines::line_with_wavelength`. -/
structure FLine where
  start : Fl × Fl
  endp : Fl × Fl
deriving DecidableEq

/-- `normed_x` (`src/calibration_module.rs`): with `a, b, c` the three
parameters and `r` the diffraction ratio,
`b * ((a * root - r) / (root + a * r)) + c` where
`root = sqrt(1 - r * r)`. -/
def normed_x (sq : ℚ → ℚ) (r : Fl) (a b c : Fl) : Fl :=
  let root := Fl.sqrt sq (Fl.sub (some 1) (Fl.mul r r))
  Fl.add
    (Fl.mul b (Fl.div (Fl.sub (Fl.mul a root) r) (Fl.add root (Fl.mul a r))))
    c

/-- Modelled from the spec: `normed_position(r) = b · ((a·root − r) /
(root + a·r)) + c` with `root = sqrt(1 − r²)`. -/
def normed_position (sq : ℚ → ℚ) (r : Fl) (a b c : Fl) : Fl :=
  let root := Fl.sqrt sq (Fl.sub (some 1) (Fl.mul r r))
  Fl.add
    (Fl.mul b (Fl.div (Fl.sub (Fl.mul a root) r) (Fl.add root (Fl.mul a r))))
    c

/-- `Line::normed_x_fraction`: the point at `frac` of a line running from
`x = 0` to `x = 1`, i.e. `(frac, (end.1 - start.1) * frac + start.1)`. -/
def Line.normed_x_fraction (l : Line) (frac : Fl) : Fl × Fl :=
  (frac,
    Fl.add (Fl.mul (Fl.sub (some l.endp.2) (some l.start.2)) frac)
      (some l.start.2))

structure SpectralLines where
  grating_const : ℚ
  top_line : Line
  top_param : Fl × Fl × Fl
  bottom_line : Line
  bottom_param : Fl × Fl × Fl

namespace SpectralLines

/-- `SpectralLines::line_with_wavelength`: evaluate `normed_x` at
`lambda * grating_const / 1_000_000` for the top and bottom parameter sets
and place the fractions on the top and bottom regression lines. -/
def line_with_wavelength (sq : ℚ → ℚ) (S : SpectralLines) (lambda : ℚ) :
    FLine :=
  let r := Fl.div (Fl.mul (some lambda) (some S.grating_const)) (some 1000000)
  let top_normed_x :=
    normed_x sq r S.top_param.1 S.top_param.2.1 S.top_param.2.2
  let bottom_normed_x :=
    normed_x sq r S.bottom_param.1 S.bottom_param.2.1 S.bottom_param.2.2
  ⟨S.top_line.normed_x_fraction top_normed_x,
    S.bottom_line.normed_x_fraction bottom_normed_x⟩

end SpectralLines

/-! ## Wavelength sampling (`get_lines`, `AbsSpectrograph::from_img`)

`CalibrationModule::get_lines` runs `while current_wl < stop { push(…);
current_wl += step }`.  The loop only terminates for a positive step, so the
model takes `0 < step` as a hypothesis.  `from_img` maps
`read_line_lightness` over the generated lines; the rasterization of each
generated line is the external crate's concern and is a parameter `rast`. -/

/-- The `while current_wl < stop` sampling loop of `get_lines`. -/
def sample_wavelengths (start stop step : ℚ) (h : 0 < step) : List ℚ :=
  if start < stop then
    start :: sample_wavelengths (start + step) stop step h
  else
    []
termination_by (Int.ceil ((stop - start) / step)).toNat
decreasing_by
  have hq : 0 < (stop - start) / step := by
    apply div_pos _ h
    linarith
  have hceil : 1 ≤ Int.ceil ((stop - start) / step) :=
    Int.one_le_ceil_iff.mpr hq
  have harg : (stop - (start + step)) / step = (stop - start) / step - 1 := by
    field_simp
    ring
  rw [harg, Int.ceil_sub_one]
  omega

/-- `CalibrationModule::get_lines` (regression already generated): one
generated line per sampled wavelength. -/
def get_lines (sq : ℚ → ℚ) (S : SpectralLines) (start stop step : ℚ)
    (h : 0 < step) : List FLine :=
  (sample_wavelengths start stop step h).map (S.line_with_wavelength sq)

structure AbsSpectrograph where
  start : ℚ
  stop : ℚ
  step : ℚ
  values : List Fl
deriving DecidableEq

namespace AbsSpectrograph

/-- `AbsSpectrograph::from_img`: sample the generated lines and read each
line's lightness off the image. -/
def from_img (sq : ℚ → ℚ) (rast : FLine → List ((ℤ × ℤ) × ℚ)) (img : Image)
    (S : SpectralLines) (start stop step : ℚ) (h : 0 < step) :
    AbsSpectrograph :=
  { start := start, stop := stop, step := step,
    values := (get_lines sq S start stop step h).map
      fun l => read_line_lightness img (rast l) }

/-- `AbsSpectrograph::add`: the three `assert_eq!` guards on `start`, `step`
and `stop` (a panic is modelled as `none`), then the element-wise sum. -/
def add (s other : AbsSpectrograph) : Option AbsSpectrograph :=
  if s.start = other.start ∧ s.step = other.step ∧ s.stop = other.stop then
    some { s with values := List.zipWith Fl.add s.values other.values }
  else
    none

/-- `AbsSpectrograph::scale`: multiply every value by `factor`. -/
def scale (s : AbsSpectrograph) (factor : Fl) : AbsSpectrograph :=
  { s with values := s.values.map fun x => Fl.mul x factor }

/-- `AbsSpectrograph::compare`: `start`, `stop` and `step` all equal. -/
def compare (s other : AbsSpectrograph) : Bool :=
  decide (s.start = other.start) && decide (s.stop = other.stop) &&
    decide (s.step = other.step)

end AbsSpectrograph

structure RelativeSpectrum where
  start : ℚ
  step : ℚ
  values : List Fl
deriving DecidableEq

namespace RelativeSpectrum

/-- `RelativeSpectrum::new`: `assert!(values.compare(reference))` (a panic is
modelled as `none`), then the element-wise quotient. -/
def new (values reference : AbsSpectrograph) : Option RelativeSpectrum :=
  if values.compare reference then
    some { start := values.start, step := values.step,
           values := List.zipWith Fl.div values.values reference.values }
  else
    none

end RelativeSpectrum

/-- `average_spectrograph`: `graphs[0]` panics on an empty vector (modelled
as `none`); otherwise add the remaining spectrographs onto the first (each
`add` can panic on incompatible inputs) and scale by `1.0 / graphs.len()`. -/
def average_spectrograph : List AbsSpectrograph → Option AbsSpectrograph
  | [] => none
  | g :: rest =>
    let factor := Fl.div (some 1) (some (((g :: rest).length : ℕ) : ℚ))
    (rest.foldl (fun acc gr => acc.bind fun a => a.add gr) (some g)).map
      fun s => s.scale factor

/-! ## Concrete instances used by counterexamples and witnesses -/

/-- Two calibration lines whose start/end x coordinates strictly increase
with the wavelength (both already top-to-bottom). -/
def increasing_lines : List (ℕ × Line) :=
  [(400, ⟨(0, 0), (0, 1)⟩), (500, ⟨(1, 0), (1, 1)⟩)]

/-- A 2×2 RGB image (12 bytes). -/
def sample_img : Image := ⟨2, 2, [10, 20, 30, 40, 50, 60, 70, 80, 90, 100, 110, 120]⟩

/-- A 2×2 RGB image whose byte at index `k` is `k`. -/
def indexed_img : Image := ⟨2, 2, [0, 1, 2, 3, 4, 5, 6, 7, 8, 9, 10, 11]⟩

/-- A 2×1 RGB image with 12 bytes of data (more than `3·width·height`). -/
def padded_img : Image := ⟨2, 1, [0, 1, 2, 3, 4, 5, 6, 7, 8, 9, 10, 11]⟩

/-- Rasterizer triples that all lie far outside a 2×2 image. -/
def outside_triples : List ((ℤ × ℤ) × ℚ) :=
  [((10, 10), 1/2), ((11, 10), 1/2)]

/-- A concrete fitted model with `grating_const = 500` and parameters
`(1, 1, 1/2)` on both lines. -/
def sample_spectral : SpectralLines :=
  { grating_const := 500
    top_line := ⟨(0, 0), (1, 1)⟩
    top_param := (some 1, some 1, some (1/2))
    bottom_line := ⟨(0, 0), (1, 1)⟩
    bottom_param := (some 1, some 1, some (1/2)) }

/-- A concrete spectrograph with a finite and a non-finite value. -/
def sample_spectrograph : AbsSpectrograph :=
  { start := 400, stop := 500, step := 50, values := [some 1, some (1/3), none] }

/-- A trivial square-root realisation used to instantiate witnesses. -/
def zero_sq : ℚ → ℚ := fun _ => 0

/-- A rasterizer that yields no triples, used to instantiate witnesses. -/
def empty_rast : FLine → List ((ℤ × ℤ) × ℚ) := fun _ => []

/-- `s` with every value multiplied by `k`: tracks the accumulator of
`average_spectrograph` over `k` copies of `s`. -/
def nat_scaled (k : ℕ) (s : AbsSpectrograph) : AbsSpectrograph :=
  { s with values := s.values.map fun v => Fl.mul v (some (k : ℚ)) }

instance key_le_total {α : Type} (key : α → ℕ) :
    IsTotal α fun a b => key a ≤ key b :=
  ⟨fun a b => Nat.le_total (key a) (key b)⟩

instance key_le_trans {α : Type} (key : α → ℕ) :
    IsTrans α fun a b => key a ≤ key b :=
  ⟨fun _ _ _ => Nat.le_trans⟩

/-! ## Theorems -/

theorem Fl.none_add (x : Fl) : Fl.add none x = none := by cases x <;> rfl

theorem Fl.add_none (x : Fl) : Fl.add x none = none := by cases x <;> rfl

theorem Fl.none_sub (x : Fl) : Fl.sub none x = none := by cases x <;> rfl

theorem Fl.sub_none (x : Fl) : Fl.sub x none = none := by cases x <;> rfl

theorem Fl.none_mul (x : Fl) : Fl.mul none x = none := by cases x <;> rfl

theorem Fl.mul_none (x : Fl) : Fl.mul x none = none := by cases x <;> rfl

theorem Fl.none_div (x : Fl) : Fl.div none x = none := by cases x <;> rfl

theorem Fl.div_none (x : Fl) : Fl.div x none = none := by cases x <;> rfl

theorem Fl.sqrt_none (sq : ℚ → ℚ) : Fl.sqrt sq none = none := rfl

namespace Fitting

theorem line_search_loop_eq_spec (P : Problem) (p g : List ℚ) :
    ∀ (fuel : ℕ) (α : ℚ),
      line_search_loop P p g fuel α =
        (spec_first_index P p g fuel α).map fun n => α * (4/5) ^ n := by
  intro fuel
  induction fuel with
  | zero => intro α; rfl
  | succ m ih =>
    intro α
    rw [line_search_loop, spec_first_index, List.range_succ_eq_map,
      List.find?_cons]
    simp only [pow_zero, mul_one]
    by_cases h : accepts P p g α = true
    · simp [h]
    · rw [Bool.not_eq_true] at h
      simp only [h]
      rw [ih (α * (4/5)), spec_first_index, List.find?_map, Option.map_map]
      have hp : ((fun n => accepts P p g (α * (4/5) ^ n)) ∘ Nat.succ)
          = fun n => accepts P p g (α * (4/5) * (4/5) ^ n) := by
        funext n
        simp only [Function.comp_apply]
        congr 1
        rw [pow_succ]
        ring
      have hfn : ((fun n : ℕ => α * (4/5) ^ n) ∘ Nat.succ)
          = fun n : ℕ => α * (4/5) * (4/5) ^ n := by
        funext n
        simp only [Function.comp_apply]
        rw [pow_succ]
        ring
      rw [hp, hfn]
      simp

theorem descent_step_eq_spec (P : Problem) (fuel : ℕ) (st : List ℚ × ℚ) :
    descent_step P fuel st = spec_step P fuel st := by
  simp only [descent_step, spec_step]
  rw [line_search_loop_eq_spec, Option.map_map]
  rfl

theorem descent_iter_eq_spec (P : Problem) (fuel : ℕ) :
    ∀ (n : ℕ) (st : List ℚ × ℚ),
      descent_iter P fuel n st = spec_search P fuel n st := by
  intro n
  induction n with
  | zero => intro st; rfl
  | succ m ih =>
    intro st
    rw [descent_iter, spec_search, descent_step_eq_spec]
    cases spec_step P fuel st
    · rfl
    · exact ih _

theorem diverging_accepts_false (α : ℚ) (h : 0 < α) :
    accepts diverging_problem [0] [-1] α = false := by
  simp only [accepts, diverging_problem, add, scale, inner_product,
    List.zipWith, List.map, List.sum_cons, List.sum_nil, List.headI,
    decide_eq_false_iff_not, not_le]
  nlinarith

theorem diverging_line_search_none :
    ∀ (fuel : ℕ) (α : ℚ), 0 < α →
      line_search_loop diverging_problem [0] [-1] fuel α = none := by
  intro fuel
  induction fuel with
  | zero => intro α _; rfl
  | succ m ih =>
    intro α h
    rw [line_search_loop, diverging_accepts_false α h]
    simp only [Bool.false_eq_true, if_false]
    exact ih (α * (4/5)) (by positivity)

end Fitting

/-- C2: `search_minimum` coincides with the spec's algorithm: it performs
exactly `max_iterations` gradient-descent iterations (the iteration count is
the sole stopping condition), each iteration accepts the first step size of
the geometric sequence `α₀, α₀·(4/5), α₀·(4/5)², …` that satisfies the
sufficient-decrease condition with `c = 1/2`, updates `p ← p − α·g`, and
warm-starts the next iteration with the accepted `α`, seeded by the caller's
initial step size.  Both sides carry the same shrink fuel, since the source
loop is unbounded. -/
theorem c2_search_minimum_matches_spec (P : Problem) (initial_params : List ℚ)
    (max_iterations : ℕ) (initial_step_size : ℚ) (fuel : ℕ) :
    Fitting.search_minimum P initial_params max_iterations initial_step_size
        fuel =
      Fitting.spec_search_minimum P initial_params max_iterations
        initial_step_size fuel := by
  unfold Fitting.search_minimum Fitting.spec_search_minimum
  rw [Fitting.descent_iter_eq_spec]

/-- C3: the backtracking inner loop of `search_minimum` has no maximum
shrink count: on `diverging_problem` (gradient `[-1]` reported for the cost
`p ↦ p[0]`) the sufficient-decrease test fails at every step size of the
geometric sequence, so for every shrink budget `fuel` the loop is still
running and the optimizer produces no result — the code neither bounds the
loop nor reports a fit failure. -/
theorem c3_line_search_unbounded (fuel : ℕ) :
    Fitting.search_minimum Fitting.diverging_problem [0] 1 1 fuel = none := by
  have hg : Fitting.diverging_problem.gradient [0] = [-1] := rfl
  have h := Fitting.diverging_line_search_none fuel 1 one_pos
  simp only [Fitting.search_minimum, Fitting.descent_iter,
    Fitting.descent_step, hg, h]
  rfl

/-- C4: `normed_x` computes exactly the spec's closed form
`normed_position(r) = b · ((a·root − r) / (root + a·r)) + c` with
`root = sqrt(1 − r²)`, for every square-root realisation, ratio and
parameter slice. -/
theorem c4_normed_x_eq_normed_position (sq : ℚ → ℚ) (r a b c : Fl) :
    normed_x sq r a b c = normed_position sq r a b c := rfl

theorem normed_x_nan (sq : ℚ → ℚ) (q : ℚ) (hq : 1 - q * q < 0) (a b c : Fl) :
    normed_x sq (some q) a b c = none := by
  have hroot : Fl.sqrt sq (Fl.sub (some 1) (Fl.mul (some q) (some q)))
      = none := by
    simp only [Fl.mul, Fl.sub, Fl.sqrt]
    rw [if_pos hq]
  simp only [normed_x, hroot, Fl.mul_none, Fl.none_sub, Fl.none_add,
    Fl.none_div]

theorem normed_x_fraction_none (l : Line) :
    l.normed_x_fraction none = (none, none) := by
  simp only [Line.normed_x_fraction, Fl.mul_none, Fl.none_add]

/-- C5: when the diffraction ratio `r = lambda * grating_const / 1e6` has
`|r| > 1`, `line_with_wavelength` does not detect the out-of-domain square
root: the NaN runs through `normed_x` and `normed_x_fraction` unhindered and
the function still returns a `Line` — all four coordinates NaN — instead of
reporting a domain error (its return type has no error channel at all). -/
theorem c5_nan_silently_propagates (sq : ℚ → ℚ) (S : SpectralLines)
    (lambda : ℚ) (h : 1 < |lambda * S.grating_const / 1000000|) :
    S.line_with_wavelength sq lambda = ⟨(none, none), (none, none)⟩ := by
  have hr : Fl.div (Fl.mul (some lambda) (some S.grating_const))
      (some 1000000) = some (lambda * S.grating_const / 1000000) := by
    simp only [Fl.mul, Fl.div]
    norm_num
  have hq : 1 - lambda * S.grating_const / 1000000 *
      (lambda * S.grating_const / 1000000) < 0 := by
    nlinarith [sq_abs (lambda * S.grating_const / 1000000),
      abs_nonneg (lambda * S.grating_const / 1000000)]
  simp only [SpectralLines.line_with_wavelength, hr,
    normed_x_nan sq _ hq, normed_x_fraction_none]

/-- Witness for C5 at `lambda = 5000`, `grating_const = 500`, so
`r = 5/2`. -/
theorem c5_witness :
    1 < |(5000 : ℚ) * sample_spectral.grating_const / 1000000| ∧
      sample_spectral.line_with_wavelength zero_sq 5000 =
        ⟨(none, none), (none, none)⟩ :=
  ⟨by
    rw [show (5000 : ℚ) * sample_spectral.grating_const / 1000000 = 5/2 by
      norm_num [sample_spectral]]
    rw [abs_of_pos] <;> norm_num,
    c5_nan_silently_propagates zero_sq sample_spectral 5000
      (by
        rw [show (5000 : ℚ) * sample_spectral.grating_const / 1000000 = 5/2 by
          norm_num [sample_spectral]]
        rw [abs_of_pos] <;> norm_num)⟩

theorem rll_foldl (img : Image) :
    ∀ (triples : List ((ℤ × ℤ) × ℚ)) (a b : ℚ),
      triples.foldl (rll_step img) (a, b) =
        (a + lightness_total img triples, b + weight_total img triples) := by
  intro triples
  induction triples with
  | nil => intro a b; simp [lightness_total, weight_total]
  | cons t rest ih =>
    intro a b
    rw [List.foldl_cons]
    cases hget : img.get (usize_of_isize t.1.1) (usize_of_isize t.1.2) with
    | none =>
      have hstep : rll_step img (a, b) t = (a, b) := by
        unfold rll_step
        rw [hget]
      rw [hstep, ih]
      simp [lightness_total, weight_total, List.filterMap_cons, hget]
    | some p =>
      obtain ⟨r, g, bl⟩ := p
      have hstep : rll_step img (a, b) t =
          (a + rgb_lightness r g bl * t.2, b + t.2) := by
        unfold rll_step
        rw [hget]
      rw [hstep, ih]
      simp only [lightness_total, weight_total, List.filterMap_cons, hget,
        Option.map_some', List.sum_cons, Prod.mk.injEq]
      constructor <;> ring

/-- C6: `read_line_lightness` computes the weighted mean
`Σ(lightness·weight) / Σ(weight)` over the rasterization triples, where a
pixel's lightness is `(r + g + b) / (255·3)` (built into `rgb_lightness`
and `lightness_total`) and out-of-bounds pixels are excluded from both sums;
but when every triple misses the image both sums are `0` and the source
divides anyway — `0.0 / 0.0` is NaN (`none`), not a sentinel or error. -/
theorem c6_weighted_mean_and_unguarded_nan :
    (∀ (img : Image) (triples : List ((ℤ × ℤ) × ℚ)),
        read_line_lightness img triples =
          Fl.div (some (lightness_total img triples))
            (some (weight_total img triples)))
      ∧ read_line_lightness sample_img outside_triples = none := by
  constructor
  · intro img triples
    simp only [read_line_lightness, rll_foldl, zero_add]
  · rfl

theorem sample_eq_range (stop step : ℚ) (h : 0 < step) :
    ∀ (n : ℕ) (start : ℚ), (Int.ceil ((stop - start) / step)).toNat = n →
      sample_wavelengths start stop step h =
        (List.range n).map fun k : ℕ => start + (k : ℚ) * step := by
  intro n
  induction n with
  | zero =>
    intro start hn
    have hns : ¬ start < stop := by
      intro hlt
      have hq : 0 < (stop - start) / step := by
        apply div_pos _ h
        linarith
      have h1 : 1 ≤ Int.ceil ((stop - start) / step) :=
        Int.one_le_ceil_iff.mpr hq
      omega
    rw [sample_wavelengths, if_neg hns]
    simp
  | succ m ih =>
    intro start hn
    have hpos : 0 < Int.ceil ((stop - start) / step) := by omega
    have hq : 0 < (stop - start) / step := Int.ceil_pos.mp hpos
    have hlt : start < stop := by
      rcases div_pos_iff.mp hq with ⟨h1, _⟩ | ⟨_, h2⟩
      · linarith
      · linarith
    have harg : (stop - (start + step)) / step = (stop - start) / step - 1 := by
      field_simp
      ring
    have hnext : (Int.ceil ((stop - (start + step)) / step)).toNat = m := by
      rw [harg, Int.ceil_sub_one]
      omega
    rw [sample_wavelengths, if_pos hlt, ih (start + step) hnext,
      List.range_succ_eq_map, List.map_cons, List.map_map]
    congr 1
    · norm_num
    · refine List.map_congr_left fun k _ => ?_
      simp only [Function.comp_apply]
      push_cast
      ring

theorem sample_chain (start stop step : ℚ) (h : 0 < step) :
    List.Chain' (· < ·) (sample_wavelengths start stop step h) := by
  rw [sample_eq_range stop step h (Int.ceil ((stop - start) / step)).toNat
    start rfl]
  rw [List.chain'_map]
  cases hn : (Int.ceil ((stop - start) / step)).toNat with
  | zero => simp
  | succ m =>
    rw [List.chain'_range_succ]
    intro i hi
    push_cast
    nlinarith [h]

/-- Counterexample for C7: with `start = 0`, `stop = 1`, `step = 1` the
sampling loop yields only `[0]` — the stop endpoint `1 = start + 1·step` is
*not* included, because the loop guard is `current_wl < stop`. -/
theorem c7_counterexample :
    sample_wavelengths 0 1 1 one_pos = [0] ∧
      (1 : ℚ) ∉ sample_wavelengths 0 1 1 one_pos := by
  have h1 : sample_wavelengths 0 1 1 one_pos = [0] := by
    rw [sample_wavelengths]
    norm_num
    rw [sample_wavelengths]
    norm_num
  exact ⟨h1, by rw [h1]; simp⟩

/-- C7 (amended): for positive `step`, building a spectrograph samples the
wavelengths `start, start + step, start + 2·step, …` strictly below `stop`
(the stop endpoint is excluded: the sampled indices are exactly
`k < ⌈(stop − start)/step⌉`), the sampled sequence is strictly increasing,
and the value sequence of `from_img` is the sample of each generated line in
that wavelength order. -/
theorem c7_sampling_characterization (sq : ℚ → ℚ)
    (rast : FLine → List ((ℤ × ℤ) × ℚ)) (img : Image) (S : SpectralLines)
    (start stop step : ℚ) (h : 0 < step) :
    (AbsSpectrograph.from_img sq rast img S start stop step h).values =
        (sample_wavelengths start stop step h).map
          (fun wl => read_line_lightness img
            (rast (S.line_with_wavelength sq wl)))
      ∧ sample_wavelengths start stop step h =
          (List.range (Int.ceil ((stop - start) / step)).toNat).map
            (fun k : ℕ => start + (k : ℚ) * step)
      ∧ List.Chain' (· < ·) (sample_wavelengths start stop step h) := by
  refine ⟨?_, sample_eq_range stop step h _ start rfl,
    sample_chain start stop step h⟩
  simp only [AbsSpectrograph.from_img, get_lines, List.map_map]
  rfl

/-- Witness for C7 at `start = 0`, `stop = 2`, `step = 1`. -/
theorem c7_witness :
    (0 : ℚ) < 1 ∧
      ((AbsSpectrograph.from_img zero_sq empty_rast sample_img sample_spectral
            0 2 1 one_pos).values =
          (sample_wavelengths 0 2 1 one_pos).map
            (fun wl => read_line_lightness sample_img
              (empty_rast (sample_spectral.line_with_wavelength zero_sq wl)))
        ∧ sample_wavelengths 0 2 1 one_pos =
            (List.range (Int.ceil (((2 : ℚ) - 0) / 1)).toNat).map
              (fun k : ℕ => 0 + (k : ℚ) * 1)
        ∧ List.Chain' (· < ·) (sample_wavelengths 0 2 1 one_pos)) :=
  ⟨one_pos, c7_sampling_characterization zero_sq empty_rast sample_img
    sample_spectral 0 2 1 one_pos⟩

/-- C8: combining spectrographs is guarded: `add` (element-wise sum) and
`RelativeSpectrum::new` (element-wise quotient) produce an output exactly
when the two spectrographs are compatible, i.e. `compare` holds, i.e.
`start`, `stop` and `step` are all identical; with any mismatch the
operation is rejected (the asserts fire) before any element-wise
computation. -/
theorem c8_combination_requires_compatibility (s o : AbsSpectrograph) :
    AbsSpectrograph.add s o =
        (if AbsSpectrograph.compare s o = true then
          some { s with values := List.zipWith Fl.add s.values o.values }
        else none)
      ∧ RelativeSpectrum.new s o =
        (if AbsSpectrograph.compare s o = true then
          some { start := s.start, step := s.step,
                 values := List.zipWith Fl.div s.values o.values }
        else none)
      ∧ (AbsSpectrograph.compare s o = true ↔
          s.start = o.start ∧ s.stop = o.stop ∧ s.step = o.step) := by
  have hc : (AbsSpectrograph.compare s o = true) ↔
      (s.start = o.start ∧ s.stop = o.stop ∧ s.step = o.step) := by
    simp [AbsSpectrograph.compare, Bool.and_eq_true, decide_eq_true_eq,
      and_assoc]
  refine ⟨?_, ?_, hc⟩
  · rw [AbsSpectrograph.add]
    by_cases hcm : AbsSpectrograph.compare s o = true
    · obtain ⟨h1, h2, h3⟩ := hc.mp hcm
      rw [if_pos ⟨h1, h3, h2⟩, if_pos hcm]
    · rw [if_neg (fun hand => hcm (hc.mpr ⟨hand.1, hand.2.2, hand.2.1⟩)),
        if_neg hcm]
  · rw [RelativeSpectrum.new]

theorem fl_add_mul_nat (a : ℚ) (k : ℕ) :
    Fl.add (Fl.mul (some a) (some (k : ℚ))) (some a)
      = Fl.mul (some a) (some (((k + 1 : ℕ)) : ℚ)) := by
  simp only [Fl.mul, Fl.add, Option.some.injEq]
  push_cast
  ring

theorem zip_add_scaled (k : ℕ) :
    ∀ vs : List Fl,
      List.zipWith Fl.add (vs.map fun v => Fl.mul v (some ((k : ℚ)))) vs =
        vs.map fun v => Fl.mul v (some (((k + 1 : ℕ) : ℚ))) := by
  intro vs
  induction vs with
  | nil => rfl
  | cons v rest ih =>
    rw [List.map_cons, List.map_cons, List.zipWith_cons_cons, ih]
    cases v with
    | none => rfl
    | some a => rw [fl_add_mul_nat]

theorem nat_scaled_one (s : AbsSpectrograph) : nat_scaled 1 s = s := by
  have hv : ∀ v : Fl, Fl.mul v (some ((1 : ℕ) : ℚ)) = v := by
    intro v
    cases v with
    | none => rfl
    | some a => simp [Fl.mul]
  cases s
  simp only [nat_scaled, hv]
  simp

theorem add_nat_scaled (s : AbsSpectrograph) (k : ℕ) :
    (nat_scaled k s).add s = some (nat_scaled (k + 1) s) := by
  rw [AbsSpectrograph.add]
  rw [if_pos ⟨rfl, rfl, rfl⟩]
  simp only [nat_scaled, zip_add_scaled]

theorem fold_replicate (s : AbsSpectrograph) :
    ∀ (m k : ℕ),
      (List.replicate m s).foldl (fun acc gr => acc.bind fun a => a.add gr)
          (some (nat_scaled k s)) =
        some (nat_scaled (k + m) s) := by
  intro m
  induction m with
  | zero => intro k; simp [List.replicate]
  | succ j ih =>
    intro k
    rw [List.replicate_succ, List.foldl_cons, Option.some_bind,
      add_nat_scaled, ih]
    have harith : k + 1 + j = k + (j + 1) := by omega
    rw [harith]

theorem scale_nat_scaled (s : AbsSpectrograph) (N : ℕ) (h : (N : ℚ) ≠ 0) :
    (nat_scaled N s).scale (Fl.div (some 1) (some (N : ℚ))) = s := by
  have hfac : Fl.div (some (1 : ℚ)) (some (N : ℚ)) = some ((N : ℚ))⁻¹ := by
    simp only [Fl.div, if_neg h, one_div]
  have hv : ∀ v : Fl,
      Fl.mul (Fl.mul v (some (N : ℚ))) (some ((N : ℚ))⁻¹) = v := by
    intro v
    cases v with
    | none => rfl
    | some a =>
      simp only [Fl.mul, Option.some.injEq]
      field_simp
  cases s
  simp only [AbsSpectrograph.scale, nat_scaled, hfac, List.map_map]
  have hcomp : ∀ vs : List Fl,
      List.map ((fun x : Fl => x.mul (some ((N : ℚ))⁻¹)) ∘
        fun v : Fl => v.mul (some (N : ℚ))) vs =
      List.map (fun v : Fl =>
        Fl.mul (Fl.mul v (some (N : ℚ))) (some ((N : ℚ))⁻¹)) vs :=
    fun _ => rfl
  rw [hcomp]
  simp only [hv]
  simp

/-- C9: averaging a non-empty list of `N` copies of a spectrograph `s`
(element-wise sum of all copies, then scaling by `1/N`) returns `s`
exactly (in the exact rational model; the float computation agrees within
tolerance), with the same `start`, `stop` and `step`. -/
theorem c9_average_of_copies (s : AbsSpectrograph) (N : ℕ) (h : 1 ≤ N) :
    average_spectrograph (List.replicate N s) = some s := by
  obtain ⟨m, rfl⟩ : ∃ m, N = m + 1 := ⟨N - 1, by omega⟩
  rw [List.replicate_succ]
  simp only [average_spectrograph]
  have hfold := fold_replicate s m 1
  rw [nat_scaled_one] at hfold
  have h1m : 1 + m = m + 1 := by omega
  rw [h1m] at hfold
  rw [hfold]
  have hlen : (((s :: List.replicate m s).length : ℕ) : ℚ)
      = ((m + 1 : ℕ) : ℚ) := by
    simp
  rw [hlen, Option.map_some']
  rw [scale_nat_scaled s (m + 1) (Nat.cast_ne_zero.mpr (by omega))]

/-- Witness for C9 with two copies of a concrete spectrograph. -/
theorem c9_witness :
    1 ≤ 2 ∧ average_spectrograph (List.replicate 2 sample_spectrograph)
        = some sample_spectrograph :=
  ⟨by norm_num, c9_average_of_copies sample_spectrograph 2 (by norm_num)⟩

/-- C10: `Image::get`'s bounds check is off by one and one-sided — for any
image and row `y`, `get(width, y)` passes the `width < x` test and returns
the three bytes at offset `3·((y+1)·width)`, i.e. the pixel stored at the
start of row `y + 1`, whenever those bytes are inside the buffer; and `y` is
never compared against the height: any `x ≤ width` succeeds as long as the
computed byte index stays inside the data buffer. -/
theorem c10_get_bounds_off_by_one :
    (∀ (img : Image) (y r g b : ℕ),
        img.data.get? (3 * ((y + 1) * img.width)) = some r →
        img.data.get? (3 * ((y + 1) * img.width) + 1) = some g →
        img.data.get? (3 * ((y + 1) * img.width) + 2) = some b →
        img.get img.width y = some (r, g, b))
      ∧ (∀ (img : Image) (x y : ℕ), x ≤ img.width →
          3 * (y * img.width + x) + 2 < img.data.length →
          (img.get x y).isSome = true) := by
  constructor
  · intro img y r g b hr hg hb
    have hidx : 3 * (y * img.width + img.width)
        = 3 * ((y + 1) * img.width) := by
      ring
    rw [Image.get, if_neg (lt_irrefl img.width)]
    simp only [hidx, hr, hg, hb]
  · intro img x y hx hlen
    rw [Image.get, if_neg (not_lt.mpr hx)]
    have h0 : 3 * (y * img.width + x) < img.data.length := by omega
    have h1 : 3 * (y * img.width + x) + 1 < img.data.length := by omega
    obtain ⟨r, hr⟩ : ∃ r, img.data.get? (3 * (y * img.width + x)) = some r :=
      ⟨_, List.get?_eq_get h0⟩
    obtain ⟨g, hg⟩ :
        ∃ g, img.data.get? (3 * (y * img.width + x) + 1) = some g :=
      ⟨_, List.get?_eq_get h1⟩
    obtain ⟨b, hb⟩ :
        ∃ b, img.data.get? (3 * (y * img.width + x) + 2) = some b :=
      ⟨_, List.get?_eq_get hlen⟩
    simp only [hr, hg, hb, Option.isSome_some]

/-- Witness for C10: on a 2×2 image whose byte `k` holds value `k`,
`get(2, 0)` answers with bytes `6, 7, 8` — the first pixel of row 1 — and
on a 2×1 image with surplus buffer bytes, `get(0, 1)` succeeds although
`y = 1` is outside the height. -/
theorem c10_witness :
    indexed_img.get indexed_img.width 0 = some (6, 7, 8) ∧
      (padded_img.get 0 1).isSome = true :=
  ⟨c10_get_bounds_off_by_one.1 indexed_img 0 6 7 8 rfl rfl rfl,
    c10_get_bounds_off_by_one.2 padded_img 0 1 (by decide) (by decide)⟩

theorem is_sorted_by_key_iff {α : Type} (key : α → ℚ) :
    ∀ l : List α, is_sorted_by_key key l = true ↔
      List.Chain' (fun a b => key a ≤ key b) l := by
  intro l
  induction l with
  | nil => simp [is_sorted_by_key]
  | cons a t ih =>
    cases t with
    | nil => simp [is_sorted_by_key]
    | cons b rest =>
      rw [is_sorted_by_key, List.chain'_cons, Bool.and_eq_true,
        decide_eq_true_eq]
      exact and_congr_right fun _ => ih

theorem sorted_sort_by_key {α : Type} (key : α → ℕ) (l : List α) :
    (sort_by_key key l).Pairwise fun a b => key a ≤ key b :=
  List.sorted_insertionSort _ l

theorem perm_sort_by_key {α : Type} (key : α → ℕ) (l : List α) :
    (sort_by_key key l).Perm l :=
  List.perm_insertionSort _ l

/-- Counterexample for C1: on two already canonical lines whose start/end x
coordinates strictly *increase* with wavelength, `CalibrationModule::validate`
returns `false`, although both x-coordinate sequences of the wavelength-sorted
set are monotonically non-decreasing — the function checks the negated keys,
i.e. non-increasing order. -/
theorem c1_counterexample :
    (CalibrationModule.validate increasing_lines).2 = false ∧
      is_sorted_by_key (fun wl => wl.2.start.1)
          (CalibrationModule.validate increasing_lines).1 = true ∧
      is_sorted_by_key (fun wl => wl.2.endp.1)
          (CalibrationModule.validate increasing_lines).1 = true := by
  refine ⟨?_, ?_, ?_⟩ <;> decide

/-- C1 (amended): `CalibrationModule::validate` canonicalizes every line
top-to-bottom, stably sorts by wavelength (the result is that sort, it is
pairwise wavelength-ordered, and a permutation of the canonicalized input),
and returns `true` iff both the start and the end x coordinates are
monotonically non-*increasing* along the sorted sequence (the sort keys are
negated).  The older `Calibration::validate` of `src/calib.rs` (vertical
branch) instead checks non-decreasing x coordinates, as the original claim
stated. -/
theorem c1_validate_characterization (lines : List (ℕ × Line)) :
    (CalibrationModule.validate lines).1 =
        sort_by_key (fun wl => wl.1)
          (lines.map fun wl => (wl.1, wl.2.make_top_to_bottom))
      ∧ ((CalibrationModule.validate lines).1).Pairwise
          (fun a b => a.1 ≤ b.1)
      ∧ ((CalibrationModule.validate lines).1).Perm
          (lines.map fun wl => (wl.1, wl.2.make_top_to_bottom))
      ∧ ((CalibrationModule.validate lines).2 = true ↔
          List.Chain' (fun a b => b.2.start.1 ≤ a.2.start.1)
              (CalibrationModule.validate lines).1
            ∧ List.Chain' (fun a b => b.2.endp.1 ≤ a.2.endp.1)
              (CalibrationModule.validate lines).1)
      ∧ ((Calibration.validate false lines).2 = true ↔
          List.Chain' (fun a b => a.2.start.1 ≤ b.2.start.1)
              (Calibration.validate false lines).1
            ∧ List.Chain' (fun a b => a.2.endp.1 ≤ b.2.endp.1)
              (Calibration.validate false lines).1) := by
  have hrel1 : (fun (a b : ℕ × Line) => -a.2.start.1 ≤ -b.2.start.1)
      = fun a b => b.2.start.1 ≤ a.2.start.1 := by
    funext a b
    exact propext neg_le_neg_iff
  have hrel2 : (fun (a b : ℕ × Line) => -a.2.endp.1 ≤ -b.2.endp.1)
      = fun a b => b.2.endp.1 ≤ a.2.endp.1 := by
    funext a b
    exact propext neg_le_neg_iff
  refine ⟨rfl, sorted_sort_by_key _ _, perm_sort_by_key _ _, ?_, ?_⟩
  · simp only [CalibrationModule.validate]
    rw [Bool.and_eq_true, is_sorted_by_key_iff, is_sorted_by_key_iff]
    simp only [hrel1, hrel2]
  · simp only [Calibration.validate, Bool.false_eq_true, if_false]
    rw [Bool.and_eq_true, is_sorted_by_key_iff, is_sorted_by_key_iff]
